import Mathlib

/-!
Verification of the subkey lifecycle module (`src/key/subkey.js`).

The `SubKey` class and its methods (`isRevoked`, `verify`, `getExpirationTime`,
`update`, `revoke`, `hasSameFingerprintAs`) are embedded directly from the
source.  The helper collaborators it calls (`helper.getLatestValidSignature`,
`helper.isDataRevoked`, `helper.isDataExpired`, `helper.getExpirationTime`,
`helper.mergeSignatures`, `helper.createSignaturePacket`) live in
`src/key/helper.js`, which is not part of the sources at hand; they are
modelled from the specification (sections 4.2-4.7 and 6) and marked as such.

Dates and timestamps are naturals; the cryptographic outcome of verifying a
signature against the (fixed) binding context {issuer: primary, subject: this
subkey} is the abstract boolean field `verifiesOk` of the signature.
-/

namespace OpenPGP

/-- Packet tag of a public subkey packet (`enums.packet.publicSubkey`). -/
def publicSubkeyTag : Nat := 14

/-- Packet tag of a secret subkey packet (`enums.packet.secretSubkey`). -/
def secretSubkeyTag : Nat := 7

/-- Signature type `enums.signature.subkeyBinding` (0x18). -/
def subkeyBindingType : Nat := 24

/-- Signature type `enums.signature.subkeyRevocation` (0x28). -/
def subkeyRevocationType : Nat := 40

/-- An expiration value: `none` is the `Never` / `Infinity` sentinel
(unbounded validity), `some t` a finite date. -/
abbrev Expiry := Option Nat

/-- A key packet (public or secret subkey material): its packet tag, its
fingerprint and its creation time. -/
structure KeyPacket where
  tag : Nat
  fingerprint : Nat
  created : Nat
deriving DecidableEq

/-- A signature packet, as the subkey logic observes it: type, issuer key
identifier, creation timestamp, its own embedded expiration, the key-level
validity period it asserts, the verified / revoked flags, the abstract
outcome of cryptographic verification against the binding context, and the
reason-for-revocation payload. -/
structure SignaturePacket where
  signatureType : Nat
  issuerKeyId : Nat
  created : Nat
  sigExpiration : Expiry
  keyValidityPeriod : Option Nat
  verified : Bool
  verifiesOk : Bool
  revoked : Bool
  reasonFlag : Nat
  reasonString : String
deriving DecidableEq

/-- The signature's own embedded expiration (`signature.getExpirationTime()`). -/
def SignaturePacket.getExpirationTime (s : SignaturePacket) : Expiry :=
  s.sigExpiration

/-- The error taxonomy of section 7. -/
inductive KeyError where
  | FingerprintMismatch
  | NoValidBindingSignature
  | Revoked
  | Expired
  | VerificationFailure
deriving DecidableEq

/-- Modelled from the spec: the SignatureVerificationService collaborator
(section 6) — `verify(signature, bindingContext, expectedType)` fails with
`VerificationFailure` on rejection.  The cryptographic outcome against the
fixed binding context is the abstract field `verifiesOk`; a signature of the
wrong type is rejected. -/
def serviceVerify (expectedType : Nat) (s : SignaturePacket) : Except KeyError Unit :=
  if s.signatureType = expectedType ∧ s.verifiesOk = true then Except.ok ()
  else Except.error KeyError.VerificationFailure

/-- Boolean view of `serviceVerify`: does the signature verify as the
expected type. -/
def verifiesAs (expectedType : Nat) (s : SignaturePacket) : Bool :=
  match serviceVerify expectedType s with
  | Except.ok _ => true
  | Except.error _ => false

/-- Modelled from the spec: a signature is expired as of a date when its
embedded expiration is at or before that date (sections 4.2, 4.4); the
`Never` sentinel never expires. -/
def sigIsExpired (s : SignaturePacket) (date : Nat) : Bool :=
  match s.sigExpiration with
  | none => false
  | some e => decide (e ≤ date)

/-- A signature qualifies for selection: it is of the expected type,
verifies against the binding context, and is not expired as of the date. -/
def validCand (expectedType : Nat) (date : Nat) (s : SignaturePacket) : Prop :=
  s.signatureType = expectedType ∧ verifiesAs expectedType s = true ∧
    sigIsExpired s date = false

instance (expectedType date : Nat) (s : SignaturePacket) :
    Decidable (validCand expectedType date s) := by
  unfold validCand
  infer_instance

/-- One step of the latest-valid-signature scan: a qualifying signature
becomes the candidate when none is held yet or when it is strictly newer. -/
def latestStep (expectedType date : Nat) (acc : Option SignaturePacket)
    (s : SignaturePacket) : Option SignaturePacket :=
  if validCand expectedType date s then
    match acc with
    | none => some s
    | some c => if c.created < s.created then some s else some c
  else acc

/-- Modelled from the spec: `helper.getLatestValidSignature` — the single
signature, among those of the expected type, that verifies against the
binding context, is not expired as of the date, and has the latest creation
timestamp among such candidates; `none` models the `NoValidSignature`
failure (section 4.2). -/
def getLatestValidSignature (sigs : List SignaturePacket) (expectedType : Nat)
    (date : Nat) : Option SignaturePacket :=
  sigs.foldl (latestStep expectedType date) none

/-- Modelled from the spec: `helper.isDataRevoked` — the data is revoked when
any signature of the list is of the revocation type, verifies successfully
against the binding context, and has a creation timestamp at or before the
as-of date (section 4.3). -/
def isDataRevoked (revocationType : Nat) (revSigs : List SignaturePacket)
    (date : Nat) : Bool :=
  revSigs.any (fun s =>
    decide (s.signatureType = revocationType) && verifiesAs revocationType s &&
      decide (s.created ≤ date))

/-- The source's date comparison `keyExpiry < sigExpiry` with `Infinity`
(`none`) as top: a finite date is below `Never`, `Never` is below nothing. -/
def expLt : Expiry → Expiry → Bool
  | some a, some b => decide (a < b)
  | some _, none => true
  | none, _ => false

/-- Minimum of two expirations under `expLt` (ties go to the right argument,
as in `keyExpiry < sigExpiry ? keyExpiry : sigExpiry`). -/
def expMin (a b : Expiry) : Expiry :=
  if expLt a b then a else b

/-- Non-strict order on expirations. -/
def expLe (a b : Expiry) : Bool :=
  expLt a b || decide (a = b)

/-- Modelled from the spec: `helper.getExpirationTime(keyPacket, signature)` —
the key-level expiration: key-material creation time plus any key-level
validity period asserted by the binding signature; `Never` when none is
asserted (section 4.5). -/
def helperGetExpirationTime (keyPacket : KeyPacket) (s : SignaturePacket) : Expiry :=
  match s.keyValidityPeriod with
  | none => none
  | some p => some (keyPacket.created + p)

/-- Modelled from the spec: `helper.isDataExpired` — the effective expiration
is the minimum of the key-level and signature-level expirations, and the data
is expired when the date is at or past it (section 4.4 step 3). -/
def isDataExpired (keyPacket : KeyPacket) (s : SignaturePacket) (date : Nat) : Bool :=
  match expMin (helperGetExpirationTime keyPacket s) s.getExpirationTime with
  | none => false
  | some e => decide (e ≤ date)

/-- The subkey entity: key material plus the two signature lists
(`class SubKey`, constructor). -/
structure SubKey where
  keyPacket : KeyPacket
  bindingSignatures : List SignaturePacket
  revocationSignatures : List SignaturePacket
deriving DecidableEq

/-- `SubKey.hasSameFingerprintAs`: fingerprint equality of the key material. -/
def SubKey.hasSameFingerprintAs (a b : SubKey) : Bool :=
  decide (a.keyPacket.fingerprint = b.keyPacket.fingerprint)

/-- `SubKey.isRevoked`: delegates to `helper.isDataRevoked` over this
subkey's revocation signatures with type subkeyRevocation. -/
def SubKey.isRevoked (sk : SubKey) (date : Nat) : Bool :=
  isDataRevoked subkeyRevocationType sk.revocationSignatures date

/-- `SubKey.verify`: select the latest valid binding signature (failure is
`NoValidBindingSignature`), fail with `Revoked` when the selected signature's
revoked flag is set or a revocation applies, fail with `Expired` when the
data is expired, succeed otherwise. -/
def SubKey.verify (sk : SubKey) (date : Nat) : Except KeyError Unit :=
  match getLatestValidSignature sk.bindingSignatures subkeyBindingType date with
  | none => Except.error KeyError.NoValidBindingSignature
  | some b =>
    if b.revoked || sk.isRevoked date then Except.error KeyError.Revoked
    else if isDataExpired sk.keyPacket b date then Except.error KeyError.Expired
    else Except.ok ()

/-- `SubKey.getExpirationTime`: on selection failure return the `Invalid`
sentinel (outer `none`); otherwise the earlier of the key-level and the
signature-level expiration (`keyExpiry < sigExpiry ? keyExpiry : sigExpiry`). -/
def SubKey.getExpirationTime (sk : SubKey) (date : Nat) : Option Expiry :=
  match getLatestValidSignature sk.bindingSignatures subkeyBindingType date with
  | none => none
  | some b =>
    some (expMin (helperGetExpirationTime sk.keyPacket b) b.getExpirationTime)

/-- The issuer-matching loop of `update`'s binding check (subkey.js lines
131-138): scan for the first local signature with the same issuer key id;
when found, replace it in place when the source signature is strictly newer
and reject the candidate for appending (`return false`); `none` when no
local signature shares the issuer. -/
def bindingLoop (src : SignaturePacket) :
    List SignaturePacket → Option (List SignaturePacket)
  | [] => none
  | t :: rest =>
    if t.issuerKeyId = src.issuerKeyId then
      some ((if t.created < src.created then src else t) :: rest)
    else
      match bindingLoop src rest with
      | some rest' => some (t :: rest')
      | none => none

/-- The binding acceptance check of `update` (subkey.js lines 130-145): run
the issuer loop (which may replace a local entry and rejects the candidate);
with no issuer match, accept the candidate when it is already marked
verified or newly verifies as a subkey binding — a `VerificationFailure`
thrown by the collaborator is caught and means rejection. -/
def bindingCheck (dest : List SignaturePacket) (src : SignaturePacket) :
    List SignaturePacket × Bool :=
  match bindingLoop src dest with
  | some dest' => (dest', false)
  | none => (dest, src.verified || verifiesAs subkeyBindingType src)

/-- The revocation acceptance check of `update` (subkey.js lines 146-149):
accept the source revocation signature exactly when, considered alone, it
currently constitutes a valid revocation. -/
def revocationCheck (now : Nat) (dest : List SignaturePacket)
    (src : SignaturePacket) : List SignaturePacket × Bool :=
  (dest, isDataRevoked subkeyRevocationType [src] now)

/-- One step of the signature merge: run the acceptance check (which may
adjust the local list), then append the candidate when accepted and not
already present. -/
def mergeStep (check : List SignaturePacket → SignaturePacket → List SignaturePacket × Bool)
    (d : List SignaturePacket) (s : SignaturePacket) : List SignaturePacket :=
  let r := check d s
  if r.2 = true ∧ s ∉ r.1 then r.1 ++ [s] else r.1

/-- Modelled from the spec: `helper.mergeSignatures` — for each signature of
the source list in order, run the acceptance check against the current local
list and absorb the candidate into the local list when the check accepts it;
absorbing a candidate already present produces no further change, so that
re-running the merge is a no-op for already-absorbed candidates
(section 4.6, postcondition). -/
def mergeSignatures (srcList : List SignaturePacket) (dest : List SignaturePacket)
    (check : List SignaturePacket → SignaturePacket → List SignaturePacket × Bool) :
    List SignaturePacket :=
  srcList.foldl (mergeStep check) dest

/-- `SubKey.update` (subkey.js lines 117-150): fingerprint precondition,
key-material upgrade (public-only replaced by the secret variant, never the
reverse), binding-signature reconciliation, revocation-signature
reconciliation.  `now` is the evaluation instant used by the revocation
acceptance check (the source passes no date, so the current time is used). -/
def SubKey.update (sk : SubKey) (src : SubKey) (now : Nat) : Except KeyError SubKey :=
  if sk.hasSameFingerprintAs src = true then
    Except.ok
      { keyPacket :=
          if sk.keyPacket.tag = publicSubkeyTag ∧ src.keyPacket.tag = secretSubkeyTag
          then src.keyPacket else sk.keyPacket,
        bindingSignatures :=
          mergeSignatures src.bindingSignatures sk.bindingSignatures bindingCheck,
        revocationSignatures :=
          mergeSignatures src.revocationSignatures sk.revocationSignatures
            (revocationCheck now) }
  else Except.error KeyError.FingerprintMismatch

/-- Modelled from the spec: `helper.createSignaturePacket` for a subkey
revocation — mints a signature of type subkeyRevocation over the binding
context, signed by the primary key, carrying the requested reason descriptor
and timestamped as requested (sections 4.7 and 6); being freshly signed by
the primary it verifies against the context. -/
def createRevocationSignature (issuerKeyId : Nat) (flag : Nat) (str : String)
    (date : Nat) : SignaturePacket :=
  { signatureType := subkeyRevocationType, issuerKeyId := issuerKeyId,
    created := date, sigExpiration := none, keyValidityPeriod := none,
    verified := false, verifiesOk := true, revoked := false,
    reasonFlag := flag, reasonString := str }

/-- `SubKey.revoke` (subkey.js lines 162-179): build a new entity over the
same key packet with empty signature lists, push a freshly minted revocation
signature, then absorb the original's history via `update`.  `primaryKeyId`
identifies the signing primary key, `date` the requested creation time of
the revocation, `now` the evaluation instant of the merge. -/
def SubKey.revoke (sk : SubKey) (primaryKeyId : Nat) (flag : Nat) (str : String)
    (date : Nat) (now : Nat) : Except KeyError SubKey :=
  let newSub : SubKey :=
    { keyPacket := sk.keyPacket,
      bindingSignatures := [],
      revocationSignatures := [createRevocationSignature primaryKeyId flag str date] }
  newSub.update sk now

/-- At most one binding signature per distinct issuer key identifier
(data-model invariant, section 3). -/
def UniqueIssuers (l : List SignaturePacket) : Prop :=
  l.Pairwise (fun s t => s.issuerKeyId ≠ t.issuerKeyId)

/-! Concrete packets used to instantiate theorems with hypotheses. -/

/-- A valid subkey-binding signature: verifies, embedded expiration 500,
asserts a key-level validity period of 300 seconds. -/
def exBindSig : SignaturePacket :=
  { signatureType := subkeyBindingType, issuerKeyId := 1, created := 100,
    sigExpiration := some 500, keyValidityPeriod := some 300,
    verified := true, verifiesOk := true, revoked := false,
    reasonFlag := 0, reasonString := "" }

/-- A public subkey packet created at time 50. -/
def exKeyPacket : KeyPacket :=
  { tag := publicSubkeyTag, fingerprint := 10, created := 50 }

/-- A subkey with one valid binding signature and no revocations. -/
def exSubKey : SubKey :=
  { keyPacket := exKeyPacket, bindingSignatures := [exBindSig],
    revocationSignatures := [] }

/-- A subkey with no signatures at all. -/
def exEmptySubKey : SubKey :=
  { keyPacket := exKeyPacket, bindingSignatures := [],
    revocationSignatures := [] }

/-- A valid subkey-revocation signature created at time 120. -/
def exRevSig : SignaturePacket :=
  { signatureType := subkeyRevocationType, issuerKeyId := 1, created := 120,
    sigExpiration := none, keyValidityPeriod := none,
    verified := false, verifiesOk := true, revoked := false,
    reasonFlag := 0, reasonString := "" }

/-- A subkey with a valid binding signature and a valid revocation. -/
def exRevokedSubKey : SubKey :=
  { keyPacket := exKeyPacket, bindingSignatures := [exBindSig],
    revocationSignatures := [exRevSig] }

/-- A public-only subkey entity with empty signature lists. -/
def exPubSubKey : SubKey :=
  { keyPacket := { tag := publicSubkeyTag, fingerprint := 10, created := 50 },
    bindingSignatures := [], revocationSignatures := [] }

/-- The secret variant of `exPubSubKey` (same fingerprint). -/
def exSecSubKey : SubKey :=
  { keyPacket := { tag := secretSubkeyTag, fingerprint := 10, created := 50 },
    bindingSignatures := [], revocationSignatures := [] }

/-- A subkey whose key material has a different fingerprint. -/
def exOtherSubKey : SubKey :=
  { keyPacket := { tag := secretSubkeyTag, fingerprint := 11, created := 50 },
    bindingSignatures := [], revocationSignatures := [] }

/-! Order lemmas on the expiration minimum. -/

theorem expLe_expMin_left (a b : Expiry) : expLe (expMin a b) a = true := by
  cases a with
  | none => cases b <;> simp [expMin, expLt, expLe]
  | some x =>
    cases b with
    | none => simp [expMin, expLt, expLe]
    | some y =>
      by_cases h : x < y
      · simp [expMin, expLt, expLe, h]
      · simp [expMin, expLt, expLe, h]
        omega

theorem expLe_expMin_right (a b : Expiry) : expLe (expMin a b) b = true := by
  cases a with
  | none => cases b <;> simp [expMin, expLt, expLe]
  | some x =>
    cases b with
    | none => simp [expMin, expLt, expLe]
    | some y =>
      by_cases h : x < y
      · simp [expMin, expLt, expLe, h]
      · simp [expMin, expLt, expLe, h]

theorem expMin_eq_left_or_right (a b : Expiry) : expMin a b = a ∨ expMin a b = b := by
  unfold expMin
  by_cases h : expLt a b = true
  · exact Or.inl (by rw [if_pos h])
  · exact Or.inr (by rw [if_neg h])

theorem expMin_eq_none_iff (a b : Expiry) :
    expMin a b = none ↔ (a = none ∧ b = none) := by
  cases a with
  | none => cases b <;> simp [expMin, expLt]
  | some x =>
    cases b with
    | none => simp [expMin, expLt]
    | some y => by_cases h : x < y <;> simp [expMin, expLt, h]

/-- Shared shape of a successful `update`: the fingerprints agreed and the
result's fields are the merged ones. -/
theorem update_ok_spec (a b : SubKey) (now : Nat) (x : SubKey)
    (h : SubKey.update a b now = Except.ok x) :
    a.keyPacket.fingerprint = b.keyPacket.fingerprint ∧
    x.keyPacket =
      (if a.keyPacket.tag = publicSubkeyTag ∧ b.keyPacket.tag = secretSubkeyTag
       then b.keyPacket else a.keyPacket) ∧
    x.bindingSignatures =
      mergeSignatures b.bindingSignatures a.bindingSignatures bindingCheck ∧
    x.revocationSignatures =
      mergeSignatures b.revocationSignatures a.revocationSignatures
        (revocationCheck now) := by
  unfold SubKey.update at h
  by_cases hf : a.hasSameFingerprintAs b = true
  · rw [if_pos hf] at h
    injection h with h
    subst h
    refine ⟨?_, rfl, rfl, rfl⟩
    unfold SubKey.hasSameFingerprintAs at hf
    exact of_decide_eq_true hf
  · rw [if_neg hf] at h
    exact absurd h (by simp)

/-- C1: for every subkey and as-of date for which a latest valid binding
signature is selected, `getExpirationTime` returns the minimum of the
key-level expiration candidate and the binding signature's embedded
expiration under the ordering with `Never` on top; the result is below both
candidates, equals one of them, and is `Never` exactly when both are. -/
theorem getExpirationTime_is_min (sk : SubKey) (d : Nat) (b : SignaturePacket)
    (h : getLatestValidSignature sk.bindingSignatures subkeyBindingType d = some b) :
    sk.getExpirationTime d =
      some (expMin (helperGetExpirationTime sk.keyPacket b) b.getExpirationTime) ∧
    expLe (expMin (helperGetExpirationTime sk.keyPacket b) b.getExpirationTime)
      (helperGetExpirationTime sk.keyPacket b) = true ∧
    expLe (expMin (helperGetExpirationTime sk.keyPacket b) b.getExpirationTime)
      b.getExpirationTime = true ∧
    (expMin (helperGetExpirationTime sk.keyPacket b) b.getExpirationTime =
        helperGetExpirationTime sk.keyPacket b ∨
      expMin (helperGetExpirationTime sk.keyPacket b) b.getExpirationTime =
        b.getExpirationTime) ∧
    (expMin (helperGetExpirationTime sk.keyPacket b) b.getExpirationTime = none ↔
      (helperGetExpirationTime sk.keyPacket b = none ∧ b.getExpirationTime = none)) := by
  refine ⟨?_, expLe_expMin_left _ _, expLe_expMin_right _ _,
    expMin_eq_left_or_right _ _, expMin_eq_none_iff _ _⟩
  unfold SubKey.getExpirationTime
  rw [h]

/-- Witness for C1: on the concrete subkey, key expiry 50 + 300 = 350 is
earlier than the embedded expiration 500, and is returned. -/
theorem getExpirationTime_is_min_witness :
    exSubKey.getExpirationTime 200 = some (some 350) :=
  ((getExpirationTime_is_min exSubKey 200 exBindSig (by decide)).1).trans (by decide)

/-- C2: a subkey with no valid binding signature as of the queried date gets
the `Invalid` sentinel (`none`) from `getExpirationTime` as a non-error
result, and `verify` fails with `NoValidBindingSignature`. -/
theorem no_valid_binding_sentinel (sk : SubKey) (d : Nat)
    (h : getLatestValidSignature sk.bindingSignatures subkeyBindingType d = none) :
    sk.getExpirationTime d = none ∧
    sk.verify d = Except.error KeyError.NoValidBindingSignature := by
  constructor
  · unfold SubKey.getExpirationTime
    rw [h]
  · unfold SubKey.verify
    rw [h]

/-- Witness for C2: the subkey with an empty binding list. -/
theorem no_valid_binding_sentinel_witness :
    exEmptySubKey.getExpirationTime 200 = none ∧
    exEmptySubKey.verify 200 = Except.error KeyError.NoValidBindingSignature :=
  no_valid_binding_sentinel exEmptySubKey 200 (by decide)

/-- Shared helper: a selected binding signature together with a set revoked
flag or an applicable revocation makes `verify` fail with `Revoked`. -/
theorem verify_revoked_of_valid_revocation (sk : SubKey) (d : Nat)
    (b : SignaturePacket)
    (hsel : getLatestValidSignature sk.bindingSignatures subkeyBindingType d = some b)
    (hrev : b.revoked = true ∨
      ∃ s ∈ sk.revocationSignatures, s.signatureType = subkeyRevocationType ∧
        s.verifiesOk = true ∧ s.created ≤ d) :
    sk.verify d = Except.error KeyError.Revoked := by
  unfold SubKey.verify
  rw [hsel]
  have hcond : (b.revoked || sk.isRevoked d) = true := by
    rcases hrev with h | ⟨s, hs, h1, h2, h3⟩
    · simp [h]
    · have hr : sk.isRevoked d = true := by
        unfold SubKey.isRevoked isDataRevoked
        rw [List.any_eq_true]
        refine ⟨s, hs, ?_⟩
        simp [h1, h3, verifiesAs, serviceVerify, h2]
      simp [hr]
  simp [hcond]

/-- C3: whenever a binding signature is selected and either its own revoked
flag is set or some revocation signature of subkey-revocation type verifies
and was created at or before the queried date, `verify` fails with
`Revoked`. -/
theorem verify_fails_revoked (sk : SubKey) (d : Nat) (b : SignaturePacket)
    (hsel : getLatestValidSignature sk.bindingSignatures subkeyBindingType d = some b)
    (hrev : b.revoked = true ∨
      ∃ s ∈ sk.revocationSignatures, s.signatureType = subkeyRevocationType ∧
        s.verifiesOk = true ∧ s.created ≤ d) :
    sk.verify d = Except.error KeyError.Revoked :=
  verify_revoked_of_valid_revocation sk d b hsel hrev

/-- Witness for C3: a concrete subkey with a valid binding signature and a
valid revocation created before the queried date. -/
theorem verify_fails_revoked_witness :
    exRevokedSubKey.verify 200 = Except.error KeyError.Revoked :=
  verify_fails_revoked exRevokedSubKey 200 exBindSig (by decide)
    (Or.inr ⟨exRevSig, by decide, by decide, by decide, by decide⟩)

/-- C4: when the fingerprints of the key materials differ, `update` fails
with `FingerprintMismatch`; the failure is raised before any merge work, and
in this functional embedding an error result carries no successor state, so
the target is unchanged. -/
theorem update_fingerprint_mismatch (a b : SubKey) (now : Nat)
    (h : a.keyPacket.fingerprint ≠ b.keyPacket.fingerprint) :
    SubKey.update a b now = Except.error KeyError.FingerprintMismatch := by
  unfold SubKey.update
  have hf : a.hasSameFingerprintAs b = false := by
    unfold SubKey.hasSameFingerprintAs
    simp [h]
  simp [hf]

/-- Witness for C4: fingerprints 10 and 11 differ. -/
theorem update_fingerprint_mismatch_witness :
    SubKey.update exSubKey exOtherSubKey 0 = Except.error KeyError.FingerprintMismatch :=
  update_fingerprint_mismatch exSubKey exOtherSubKey 0 (by decide)

/-- C5: across every successful `update`, the target's key material is the
source's exactly when the local material was public-only and the source's is
the secret variant, and is otherwise (in particular whenever the local
material is already secret) left unchanged. -/
theorem update_key_material_upgrade_only (a b : SubKey) (now : Nat) (x : SubKey)
    (h : SubKey.update a b now = Except.ok x) :
    x.keyPacket =
      (if a.keyPacket.tag = publicSubkeyTag ∧ b.keyPacket.tag = secretSubkeyTag
       then b.keyPacket else a.keyPacket) ∧
    (¬ (a.keyPacket.tag = publicSubkeyTag ∧ b.keyPacket.tag = secretSubkeyTag) →
      x.keyPacket = a.keyPacket) ∧
    (a.keyPacket.tag = secretSubkeyTag → x.keyPacket = a.keyPacket) := by
  obtain ⟨-, hk, -, -⟩ := update_ok_spec a b now x h
  refine ⟨hk, ?_, ?_⟩
  · intro hc
    rw [hk, if_neg hc]
  · intro hs
    have hc : ¬ (a.keyPacket.tag = publicSubkeyTag ∧
        b.keyPacket.tag = secretSubkeyTag) := by
      rintro ⟨h1, -⟩
      rw [hs] at h1
      exact absurd h1 (by decide)
    rw [hk, if_neg hc]

/-! Structural lemmas about the binding-signature merge. -/

theorem bindingLoop_none_iff (src : SignaturePacket) (l : List SignaturePacket) :
    bindingLoop src l = none ↔ ∀ t ∈ l, t.issuerKeyId ≠ src.issuerKeyId := by
  induction l with
  | nil => simp [bindingLoop]
  | cons t rest ih =>
    simp only [bindingLoop]
    by_cases h : t.issuerKeyId = src.issuerKeyId
    · rw [if_pos h]
      simp [h]
    · rw [if_neg h]
      cases hr : bindingLoop src rest with
      | some rest' =>
        simp only [List.mem_cons]
        constructor
        · intro hc
          exact absurd hc (by simp)
        · intro hall
          have hn : bindingLoop src rest = none :=
            ih.mpr (fun u hu => hall u (Or.inr hu))
          rw [hn] at hr
          exact absurd hr (by simp)
      | none =>
        simp only [List.mem_cons]
        constructor
        · intro _ u hu
          rcases hu with rfl | hu
          · exact h
          · exact (ih.mp hr) u hu
        · intro _
          trivial

theorem bindingLoop_some_spec (src : SignaturePacket) (l l' : List SignaturePacket)
    (h : bindingLoop src l = some l') :
    ∃ l1 t l2, l = l1 ++ t :: l2 ∧
      (∀ u ∈ l1, u.issuerKeyId ≠ src.issuerKeyId) ∧
      t.issuerKeyId = src.issuerKeyId ∧
      l' = l1 ++ (if t.created < src.created then src else t) :: l2 := by
  induction l generalizing l' with
  | nil => simp [bindingLoop] at h
  | cons t rest ih =>
    by_cases hiss : t.issuerKeyId = src.issuerKeyId
    · refine ⟨[], t, rest, rfl, by simp, hiss, ?_⟩
      simp only [bindingLoop, if_pos hiss] at h
      injection h with h
      simp [← h]
    · simp only [bindingLoop, if_neg hiss] at h
      cases hr : bindingLoop src rest with
      | none =>
        rw [hr] at h
        exact absurd h (by simp)
      | some rest' =>
        rw [hr] at h
        injection h with h
        obtain ⟨l1, u, l2, he, hno, hu, he'⟩ := ih rest' hr
        refine ⟨t :: l1, u, l2, by simp [he], ?_, hu, ?_⟩
        · intro v hv
          rcases List.mem_cons.mp hv with rfl | hv'
          · exact hiss
          · exact hno v hv'
        · rw [← h, he', List.cons_append]

theorem bindingLoop_eq_of_first (src t : SignaturePacket)
    (l1 l2 : List SignaturePacket)
    (hno : ∀ u ∈ l1, u.issuerKeyId ≠ src.issuerKeyId)
    (ht : t.issuerKeyId = src.issuerKeyId) :
    bindingLoop src (l1 ++ t :: l2) =
      some (l1 ++ (if t.created < src.created then src else t) :: l2) := by
  induction l1 with
  | nil => simp [bindingLoop, ht]
  | cons u l1' ih =>
    have hu : u.issuerKeyId ≠ src.issuerKeyId := hno u (by simp)
    have hstep : bindingLoop src (u :: (l1' ++ t :: l2)) =
        match bindingLoop src (l1' ++ t :: l2) with
        | some rest' => some (u :: rest')
        | none => none := by
      simp only [bindingLoop]
      rw [if_neg hu]
    rw [List.cons_append, hstep, ih (fun v hv => hno v (by simp [hv]))]
    rw [List.cons_append]

theorem mergeStep_binding_replace (d d' : List SignaturePacket)
    (s : SignaturePacket) (h : bindingLoop s d = some d') :
    mergeStep bindingCheck d s = d' := by
  unfold mergeStep bindingCheck
  rw [h]
  simp

theorem mergeStep_binding_append (d : List SignaturePacket) (s : SignaturePacket)
    (h : bindingLoop s d = none)
    (ha : (s.verified || verifiesAs subkeyBindingType s) = true) :
    mergeStep bindingCheck d s = d ++ [s] := by
  have hmem : s ∉ d := fun hs => (bindingLoop_none_iff s d).mp h s hs rfl
  unfold mergeStep bindingCheck
  rw [h]
  simp [ha, hmem]

theorem mergeStep_binding_skip (d : List SignaturePacket) (s : SignaturePacket)
    (h : bindingLoop s d = none)
    (ha : (s.verified || verifiesAs subkeyBindingType s) = false) :
    mergeStep bindingCheck d s = d := by
  unfold mergeStep bindingCheck
  rw [h]
  simp [ha]

/-- The step with the first issuer match explicit: the retained entry is the
later-created of the local entry and the source candidate. -/
theorem mergeStep_first_match (l1 l2 : List SignaturePacket)
    (t s : SignaturePacket)
    (hno : ∀ u ∈ l1, u.issuerKeyId ≠ s.issuerKeyId)
    (ht : t.issuerKeyId = s.issuerKeyId) :
    mergeStep bindingCheck (l1 ++ t :: l2) s =
      l1 ++ (if t.created < s.created then s else t) :: l2 :=
  mergeStep_binding_replace _ _ _ (bindingLoop_eq_of_first s t l1 l2 hno ht)

theorem uniqueIssuers_mergeStep (d : List SignaturePacket) (s : SignaturePacket)
    (h : UniqueIssuers d) : UniqueIssuers (mergeStep bindingCheck d s) := by
  cases hr : bindingLoop s d with
  | some d' =>
    rw [mergeStep_binding_replace d d' s hr]
    obtain ⟨l1, t, l2, hd, hno, ht, hl'⟩ := bindingLoop_some_spec s d d' hr
    subst hd
    subst hl'
    have htt : (if t.created < s.created then s else t).issuerKeyId = t.issuerKeyId := by
      by_cases hc : t.created < s.created
      · rw [if_pos hc]
        exact ht.symm
      · rw [if_neg hc]
    rw [UniqueIssuers] at h ⊢
    rw [List.pairwise_append] at h ⊢
    obtain ⟨h1, h2, h3⟩ := h
    rw [List.pairwise_cons] at h2 ⊢
    refine ⟨h1, ⟨?_, h2.2⟩, ?_⟩
    · intro u hu
      rw [htt]
      exact h2.1 u hu
    · intro u hu v hv
      rcases List.mem_cons.mp hv with rfl | hv'
      · rw [htt]
        exact h3 u hu t (by simp)
      · exact h3 u hu v (by simp [hv'])
  | none =>
    cases ha : (s.verified || verifiesAs subkeyBindingType s) with
    | true =>
      rw [mergeStep_binding_append d s hr ha]
      rw [UniqueIssuers, List.pairwise_append]
      refine ⟨h, by simp [UniqueIssuers], ?_⟩
      intro u hu v hv
      simp only [List.mem_singleton] at hv
      rw [hv]
      exact (bindingLoop_none_iff s d).mp hr u hu
    | false =>
      rw [mergeStep_binding_skip d s hr ha]
      exact h

theorem uniqueIssuers_foldl (L d : List SignaturePacket) (h : UniqueIssuers d) :
    UniqueIssuers (L.foldl (mergeStep bindingCheck) d) := by
  induction L generalizing d with
  | nil => exact h
  | cons s L ih => exact ih _ (uniqueIssuers_mergeStep _ _ h)

/-- C6: a successful `update` on a target whose binding list has at most one
signature per issuer leaves at most one signature per issuer, and when a
source candidate shares its issuer with the first matching local entry, the
later-created of the two is the one retained by the merge step. -/
theorem update_per_issuer_retention (a b : SubKey) (now : Nat) (x : SubKey)
    (h : SubKey.update a b now = Except.ok x)
    (hu : UniqueIssuers a.bindingSignatures) :
    UniqueIssuers x.bindingSignatures ∧
    ∀ (l1 l2 : List SignaturePacket) (t s : SignaturePacket),
      (∀ u ∈ l1, u.issuerKeyId ≠ s.issuerKeyId) → t.issuerKeyId = s.issuerKeyId →
        mergeStep bindingCheck (l1 ++ t :: l2) s =
          l1 ++ (if t.created < s.created then s else t) :: l2 := by
  obtain ⟨-, -, hb, -⟩ := update_ok_spec a b now x h
  refine ⟨?_, fun l1 l2 t s hno ht => mergeStep_first_match l1 l2 t s hno ht⟩
  rw [hb]
  exact uniqueIssuers_foldl _ _ hu

/-- C10: when a source binding signature's issuer matches the first local
entry with that issuer, a strictly later source signature replaces the local
entry regardless of its verification state, and an equal-timestamp source
candidate is discarded, the local entry kept. -/
theorem binding_replace_without_verification (l1 l2 : List SignaturePacket)
    (t s : SignaturePacket)
    (hno : ∀ u ∈ l1, u.issuerKeyId ≠ s.issuerKeyId)
    (ht : t.issuerKeyId = s.issuerKeyId) :
    (t.created < s.created →
      mergeStep bindingCheck (l1 ++ t :: l2) s = l1 ++ s :: l2) ∧
    (s.verified = false → verifiesAs subkeyBindingType s = false →
      t.created < s.created →
      mergeStep bindingCheck (l1 ++ t :: l2) s = l1 ++ s :: l2) ∧
    (t.created = s.created →
      mergeStep bindingCheck (l1 ++ t :: l2) s = l1 ++ t :: l2) := by
  have key := mergeStep_first_match l1 l2 t s hno ht
  refine ⟨?_, ?_, ?_⟩
  · intro hlt
    rw [key, if_pos hlt]
  · intro _ _ hlt
    rw [key, if_pos hlt]
  · intro heq
    rw [key, if_neg (by omega)]

/-- A binding signature from the same issuer, created at time 150, newer
than `exBindSig`. -/
def exNewerBindSig : SignaturePacket :=
  { signatureType := subkeyBindingType, issuerKeyId := 1, created := 150,
    sigExpiration := some 600, keyValidityPeriod := some 300,
    verified := true, verifiesOk := true, revoked := false,
    reasonFlag := 0, reasonString := "" }

/-- A source subkey carrying only the newer binding signature. -/
def exSourceSubKey : SubKey :=
  { keyPacket := exKeyPacket, bindingSignatures := [exNewerBindSig],
    revocationSignatures := [] }

/-- A newer same-issuer binding signature that is neither marked verified
nor cryptographically valid. -/
def exUnverifiedNewerSig : SignaturePacket :=
  { signatureType := subkeyBindingType, issuerKeyId := 1, created := 150,
    sigExpiration := none, keyValidityPeriod := none,
    verified := false, verifiesOk := false, revoked := false,
    reasonFlag := 0, reasonString := "" }

/-- Witness for C6: merging a newer same-issuer signature keeps the issuer
count at one. -/
theorem update_per_issuer_retention_witness :
    UniqueIssuers exSourceSubKey.bindingSignatures ∧
    ∀ (l1 l2 : List SignaturePacket) (t s : SignaturePacket),
      (∀ u ∈ l1, u.issuerKeyId ≠ s.issuerKeyId) → t.issuerKeyId = s.issuerKeyId →
        mergeStep bindingCheck (l1 ++ t :: l2) s =
          l1 ++ (if t.created < s.created then s else t) :: l2 :=
  update_per_issuer_retention exSubKey exSourceSubKey 0 exSourceSubKey
    (by rfl) (by simp [UniqueIssuers, exSubKey])

/-- Witness for C10: the strictly newer unverifiable same-issuer candidate
replaces the local entry; with equal timestamps the local entry stays. -/
theorem binding_replace_without_verification_witness :
    (exBindSig.created < exUnverifiedNewerSig.created →
      mergeStep bindingCheck ([] ++ exBindSig :: []) exUnverifiedNewerSig =
        [] ++ exUnverifiedNewerSig :: []) ∧
    (exUnverifiedNewerSig.verified = false →
      verifiesAs subkeyBindingType exUnverifiedNewerSig = false →
      exBindSig.created < exUnverifiedNewerSig.created →
      mergeStep bindingCheck ([] ++ exBindSig :: []) exUnverifiedNewerSig =
        [] ++ exUnverifiedNewerSig :: []) ∧
    (exBindSig.created = exUnverifiedNewerSig.created →
      mergeStep bindingCheck ([] ++ exBindSig :: []) exUnverifiedNewerSig =
        [] ++ exBindSig :: []) :=
  binding_replace_without_verification [] [] exBindSig exUnverifiedNewerSig
    (by simp) (by rfl)

/-! The per-issuer recency bound used for the idempotence analysis: the
first local entry sharing the signature's issuer exists and is at least as
recent as the signature. -/

def goodFor (s : SignaturePacket) : List SignaturePacket → Prop
  | [] => False
  | t :: rest =>
    if t.issuerKeyId = s.issuerKeyId then s.created ≤ t.created else goodFor s rest

theorem goodFor_append (s : SignaturePacket) (l l2 : List SignaturePacket)
    (h : goodFor s l) : goodFor s (l ++ l2) := by
  induction l with
  | nil => exact absurd h (by simp [goodFor])
  | cons t rest ih =>
    by_cases ht : t.issuerKeyId = s.issuerKeyId
    · simp only [goodFor, if_pos ht] at h
      simp only [List.cons_append, goodFor, if_pos ht]
      exact h
    · simp only [goodFor, if_neg ht] at h
      simp only [List.cons_append, goodFor, if_neg ht]
      exact ih h

theorem goodFor_self_append (s : SignaturePacket) (l : List SignaturePacket)
    (h : ∀ u ∈ l, u.issuerKeyId ≠ s.issuerKeyId) : goodFor s (l ++ [s]) := by
  induction l with
  | nil => simp [goodFor]
  | cons t rest ih =>
    have ht : t.issuerKeyId ≠ s.issuerKeyId := h t (by simp)
    simp only [List.cons_append, goodFor, if_neg ht]
    exact ih (fun u hu => h u (by simp [hu]))

theorem goodFor_of_loop_some (s : SignaturePacket) (l l' : List SignaturePacket)
    (h : bindingLoop s l = some l') : goodFor s l' := by
  induction l generalizing l' with
  | nil => simp [bindingLoop] at h
  | cons t rest ih =>
    by_cases ht : t.issuerKeyId = s.issuerKeyId
    · simp only [bindingLoop, if_pos ht] at h
      injection h with h
      rw [← h]
      by_cases hc : t.created < s.created
      · rw [if_pos hc]
        simp [goodFor]
      · rw [if_neg hc]
        simp only [goodFor, if_pos ht]
        omega
    · have hstep : bindingLoop s (t :: rest) =
          match bindingLoop s rest with
          | some rest' => some (t :: rest')
          | none => none := by
        simp only [bindingLoop]
        rw [if_neg ht]
      rw [hstep] at h
      cases hr : bindingLoop s rest with
      | none =>
        rw [hr] at h
        exact absurd h (by simp)
      | some rest' =>
        rw [hr] at h
        injection h with h
        rw [← h]
        simp only [goodFor, if_neg ht]
        exact ih rest' hr

theorem loop_fix_of_goodFor (s : SignaturePacket) (l : List SignaturePacket)
    (h : goodFor s l) : bindingLoop s l = some l := by
  induction l with
  | nil => exact absurd h (by simp [goodFor])
  | cons t rest ih =>
    by_cases ht : t.issuerKeyId = s.issuerKeyId
    · simp only [goodFor, if_pos ht] at h
      simp only [bindingLoop, if_pos ht]
      rw [if_neg (by omega)]
    · simp only [goodFor, if_neg ht] at h
      simp only [bindingLoop]
      rw [if_neg ht, ih h]

theorem goodFor_loop_preserved (s s2 : SignaturePacket)
    (l l' : List SignaturePacket)
    (hg : goodFor s l) (h : bindingLoop s2 l = some l') : goodFor s l' := by
  induction l generalizing l' with
  | nil => simp [bindingLoop] at h
  | cons t rest ih =>
    by_cases ht : t.issuerKeyId = s2.issuerKeyId
    · simp only [bindingLoop, if_pos ht] at h
      injection h with h
      rw [← h]
      by_cases hc : t.created < s2.created
      · rw [if_pos hc]
        by_cases hts : t.issuerKeyId = s.issuerKeyId
        · simp only [goodFor, if_pos hts] at hg
          have hs2 : s2.issuerKeyId = s.issuerKeyId := by rw [← ht, hts]
          simp only [goodFor, if_pos hs2]
          omega
        · have hs2 : s2.issuerKeyId ≠ s.issuerKeyId := by
            rw [← ht]
            exact hts
          simp only [goodFor, if_neg hts] at hg
          simp only [goodFor, if_neg hs2]
          exact hg
      · rw [if_neg hc]
        exact hg
    · have hstep : bindingLoop s2 (t :: rest) =
          match bindingLoop s2 rest with
          | some rest' => some (t :: rest')
          | none => none := by
        simp only [bindingLoop]
        rw [if_neg ht]
      rw [hstep] at h
      cases hr : bindingLoop s2 rest with
      | none =>
        rw [hr] at h
        exact absurd h (by simp)
      | some rest' =>
        rw [hr] at h
        injection h with h
        rw [← h]
        by_cases hts : t.issuerKeyId = s.issuerKeyId
        · simp only [goodFor, if_pos hts] at hg ⊢
          exact hg
        · simp only [goodFor, if_neg hts] at hg ⊢
          exact ih rest' hg hr

theorem goodFor_mergeStep (s s2 : SignaturePacket) (l : List SignaturePacket)
    (h : goodFor s l) : goodFor s (mergeStep bindingCheck l s2) := by
  cases hr : bindingLoop s2 l with
  | some l' =>
    rw [mergeStep_binding_replace l l' s2 hr]
    exact goodFor_loop_preserved s s2 l l' h hr
  | none =>
    cases ha : (s2.verified || verifiesAs subkeyBindingType s2) with
    | true =>
      rw [mergeStep_binding_append l s2 hr ha]
      exact goodFor_append s l [s2] h
    | false =>
      rw [mergeStep_binding_skip l s2 hr ha]
      exact h

theorem goodFor_mergeStep_self (s : SignaturePacket) (l : List SignaturePacket)
    (ha : (s.verified || verifiesAs subkeyBindingType s) = true) :
    goodFor s (mergeStep bindingCheck l s) := by
  cases hr : bindingLoop s l with
  | some l' =>
    rw [mergeStep_binding_replace l l' s hr]
    exact goodFor_of_loop_some s l l' hr
  | none =>
    rw [mergeStep_binding_append l s hr ha]
    exact goodFor_self_append s l ((bindingLoop_none_iff s l).mp hr)

theorem mergeStep_fix_of_goodFor (s : SignaturePacket) (l : List SignaturePacket)
    (h : goodFor s l) : mergeStep bindingCheck l s = l :=
  mergeStep_binding_replace l l s (loop_fix_of_goodFor s l h)

theorem goodFor_foldl (s : SignaturePacket) (L d : List SignaturePacket)
    (h : goodFor s d) : goodFor s (L.foldl (mergeStep bindingCheck) d) := by
  induction L generalizing d with
  | nil => exact h
  | cons s2 L ih => exact ih _ (goodFor_mergeStep s s2 d h)

theorem foldl_goodFor_all (L : List SignaturePacket) (d : List SignaturePacket)
    (hacc : ∀ s ∈ L, (s.verified || verifiesAs subkeyBindingType s) = true) :
    ∀ s ∈ L, goodFor s (L.foldl (mergeStep bindingCheck) d) := by
  induction L generalizing d with
  | nil => simp
  | cons s0 L ih =>
    intro s hs
    rcases List.mem_cons.mp hs with rfl | hs'
    · exact goodFor_foldl s L _ (goodFor_mergeStep_self s d (hacc s (by simp)))
    · exact ih (mergeStep bindingCheck d s0) (fun u hu => hacc u (by simp [hu])) s hs'

theorem foldl_fix_of_goodFor (L d : List SignaturePacket)
    (h : ∀ s ∈ L, goodFor s d) : L.foldl (mergeStep bindingCheck) d = d := by
  induction L with
  | nil => rfl
  | cons s0 L ih =>
    have h0 : mergeStep bindingCheck d s0 = d :=
      mergeStep_fix_of_goodFor s0 d (h s0 (by simp))
    simp only [List.foldl_cons, h0]
    exact ih (fun s hs => h s (by simp [hs]))

/-! Lemmas about the revocation-signature merge. -/

theorem mergeStep_rev (now : Nat) (d : List SignaturePacket)
    (s : SignaturePacket) :
    mergeStep (revocationCheck now) d s =
      if isDataRevoked subkeyRevocationType [s] now = true ∧ s ∉ d
      then d ++ [s] else d := rfl

theorem rev_fold_mem_mono (now : Nat) (L d : List SignaturePacket)
    (s : SignaturePacket) (h : s ∈ d) :
    s ∈ L.foldl (mergeStep (revocationCheck now)) d := by
  induction L generalizing d with
  | nil => exact h
  | cons s0 L ih =>
    apply ih
    rw [mergeStep_rev]
    by_cases hc : isDataRevoked subkeyRevocationType [s0] now = true ∧ s0 ∉ d
    · rw [if_pos hc]
      exact List.mem_append_left _ h
    · rw [if_neg hc]
      exact h

theorem rev_fold_mem_of_pred (now : Nat) (L : List SignaturePacket) :
    ∀ (d : List SignaturePacket) (s : SignaturePacket), s ∈ L →
      isDataRevoked subkeyRevocationType [s] now = true →
      s ∈ L.foldl (mergeStep (revocationCheck now)) d := by
  induction L with
  | nil =>
    intro d s hs
    simp at hs
  | cons s0 L ih =>
    intro d s hs hp
    rcases List.mem_cons.mp hs with rfl | hs'
    · rw [List.foldl_cons]
      apply rev_fold_mem_mono
      rw [mergeStep_rev]
      by_cases hm : s ∈ d
      · by_cases hc : isDataRevoked subkeyRevocationType [s] now = true ∧ s ∉ d
        · rw [if_pos hc]
          exact List.mem_append_left _ hm
        · rw [if_neg hc]
          exact hm
      · rw [if_pos ⟨hp, hm⟩]
        exact List.mem_append_right _ (by simp)
    · exact ih (mergeStep (revocationCheck now) d s0) s hs' hp

theorem rev_fold_fix (now : Nat) (L d : List SignaturePacket)
    (h : ∀ s ∈ L, isDataRevoked subkeyRevocationType [s] now = true → s ∈ d) :
    L.foldl (mergeStep (revocationCheck now)) d = d := by
  induction L with
  | nil => rfl
  | cons s0 L ih =>
    have h0 : mergeStep (revocationCheck now) d s0 = d := by
      rw [mergeStep_rev, if_neg]
      rintro ⟨hp, hnm⟩
      exact hnm (h s0 (by simp) hp)
    simp only [List.foldl_cons, h0]
    exact ih (fun s hs hp => h s (by simp [hs]) hp)

/-- Equality of subkeys from equality of the three fields. -/
theorem SubKey.ext_fields (x y : SubKey) (h1 : x.keyPacket = y.keyPacket)
    (h2 : x.bindingSignatures = y.bindingSignatures)
    (h3 : x.revocationSignatures = y.revocationSignatures) : x = y := by
  cases x
  cases y
  congr 1

/-- Witness for C5: merging the secret variant into the public-only entity
adopts the secret key packet. -/
theorem update_key_material_upgrade_only_witness :
    exSecSubKey.keyPacket =
      (if exPubSubKey.keyPacket.tag = publicSubkeyTag ∧
          exSecSubKey.keyPacket.tag = secretSubkeyTag
       then exSecSubKey.keyPacket else exPubSubKey.keyPacket) ∧
    (¬ (exPubSubKey.keyPacket.tag = publicSubkeyTag ∧
        exSecSubKey.keyPacket.tag = secretSubkeyTag) →
      exSecSubKey.keyPacket = exPubSubKey.keyPacket) ∧
    (exPubSubKey.keyPacket.tag = secretSubkeyTag →
      exSecSubKey.keyPacket = exPubSubKey.keyPacket) :=
  update_key_material_upgrade_only exPubSubKey exSecSubKey 0 exSecSubKey (by rfl)

/-! C7: idempotence of update. -/

/-- A verified local binding signature from issuer 3. -/
def c7Local : SignaturePacket :=
  { signatureType := subkeyBindingType, issuerKeyId := 3, created := 1,
    sigExpiration := none, keyValidityPeriod := none,
    verified := true, verifiesOk := true, revoked := false,
    reasonFlag := 0, reasonString := "" }

/-- A source binding signature from issuer 2, created at 10, that neither
is marked verified nor verifies. -/
def c7Unverifiable : SignaturePacket :=
  { signatureType := subkeyBindingType, issuerKeyId := 2, created := 10,
    sigExpiration := none, keyValidityPeriod := none,
    verified := false, verifiesOk := false, revoked := false,
    reasonFlag := 0, reasonString := "" }

/-- A source binding signature from issuer 2, created at 2, that verifies. -/
def c7Verifiable : SignaturePacket :=
  { signatureType := subkeyBindingType, issuerKeyId := 2, created := 2,
    sigExpiration := none, keyValidityPeriod := none,
    verified := false, verifiesOk := true, revoked := false,
    reasonFlag := 0, reasonString := "" }

/-- Merge target holding one binding signature from issuer 3. -/
def c7A : SubKey :=
  { keyPacket := exKeyPacket, bindingSignatures := [c7Local],
    revocationSignatures := [] }

/-- Merge source: the unverifiable newer issuer-2 signature first, then the
verifiable older issuer-2 signature. -/
def c7B : SubKey :=
  { keyPacket := exKeyPacket,
    bindingSignatures := [c7Unverifiable, c7Verifiable],
    revocationSignatures := [] }

/-- State after one merge of `c7B` into `c7A`. -/
def c7A1 : SubKey :=
  { keyPacket := exKeyPacket, bindingSignatures := [c7Local, c7Verifiable],
    revocationSignatures := [] }

/-- State after a second merge of `c7B`. -/
def c7A2 : SubKey :=
  { keyPacket := exKeyPacket, bindingSignatures := [c7Local, c7Unverifiable],
    revocationSignatures := [] }

/-- Counterexample to C7 as stated: with matching fingerprints, the first
merge drops the unverifiable issuer-2 candidate but accepts the verifiable
one; the second merge then finds an issuer-2 entry and adopts the strictly
newer unverifiable candidate without verification, so the state changes
again. -/
theorem update_not_idempotent :
    SubKey.update c7A c7B 0 = Except.ok c7A1 ∧
    SubKey.update c7A1 c7B 0 = Except.ok c7A2 ∧
    c7A2 ≠ c7A1 :=
  ⟨by rfl, by rfl, by decide⟩

/-- C7 (amended): update is idempotent provided every source binding
signature is acceptable to the merge — already marked verified or verifying
as a subkey binding — so the first merge drops no source binding candidate. -/
theorem update_idempotent_of_acceptable (a b a1 a2 : SubKey) (now : Nat)
    (hv : ∀ s ∈ b.bindingSignatures,
      (s.verified || verifiesAs subkeyBindingType s) = true)
    (h1 : SubKey.update a b now = Except.ok a1)
    (h2 : SubKey.update a1 b now = Except.ok a2) :
    a2 = a1 := by
  obtain ⟨hf1, hk1, hb1, hr1⟩ := update_ok_spec a b now a1 h1
  obtain ⟨hf2, hk2, hb2, hr2⟩ := update_ok_spec a1 b now a2 h2
  have e1 : a2.keyPacket = a1.keyPacket := by
    rw [hk2]
    by_cases hc2 : a1.keyPacket.tag = publicSubkeyTag ∧
        b.keyPacket.tag = secretSubkeyTag
    · exfalso
      rw [hk1] at hc2
      by_cases hc : a.keyPacket.tag = publicSubkeyTag ∧
          b.keyPacket.tag = secretSubkeyTag
      · rw [if_pos hc] at hc2
        obtain ⟨x1, x2⟩ := hc2
        exact absurd (x1.symm.trans x2) (by decide)
      · rw [if_neg hc] at hc2
        exact hc hc2
    · rw [if_neg hc2]
  have e2 : a2.bindingSignatures = a1.bindingSignatures := by
    rw [hb2]
    refine foldl_fix_of_goodFor _ _ (fun s hs => ?_)
    rw [hb1]
    exact foldl_goodFor_all _ _ hv s hs
  have e3 : a2.revocationSignatures = a1.revocationSignatures := by
    rw [hr2]
    refine rev_fold_fix now _ _ (fun s hs hp => ?_)
    rw [hr1]
    exact rev_fold_mem_of_pred now _ _ s hs hp
  exact SubKey.ext_fields a2 a1 e1 e2 e3

/-- Witness for the amended C7: a source whose single binding signature is
acceptable merges idempotently. -/
theorem update_idempotent_of_acceptable_witness :
    exSourceSubKey = exSourceSubKey :=
  update_idempotent_of_acceptable exSubKey exSourceSubKey exSourceSubKey
    exSourceSubKey 0 (by decide) (by rfl) (by rfl)

/-- C8: a `VerificationFailure` from the collaborator while checking an
individual source candidate is treated as rejecting that candidate (the
merge step leaves the local list unchanged), and `update` can only fail
with `FingerprintMismatch` — it never propagates `VerificationFailure`. -/
theorem update_catches_verification_failure (a b : SubKey) (now : Nat)
    (d d2 : List SignaturePacket) (s s2 : SignaturePacket)
    (hF : serviceVerify subkeyBindingType s =
      Except.error KeyError.VerificationFailure)
    (hnv : s.verified = false)
    (hnm : bindingLoop s d = none)
    (hF2 : serviceVerify subkeyRevocationType s2 =
      Except.error KeyError.VerificationFailure) :
    (∀ e, SubKey.update a b now = Except.error e →
      e = KeyError.FingerprintMismatch) ∧
    mergeStep bindingCheck d s = d ∧
    mergeStep (revocationCheck now) d2 s2 = d2 := by
  have hva : verifiesAs subkeyBindingType s = false := by
    unfold verifiesAs
    rw [hF]
  have hva2 : verifiesAs subkeyRevocationType s2 = false := by
    unfold verifiesAs
    rw [hF2]
  refine ⟨?_, ?_, ?_⟩
  · intro e he
    unfold SubKey.update at he
    by_cases hf : a.hasSameFingerprintAs b = true
    · rw [if_pos hf] at he
      exact absurd he (by simp)
    · rw [if_neg hf] at he
      injection he with he
      exact he.symm
  · exact mergeStep_binding_skip d s hnm (by rw [hnv, hva]; rfl)
  · rw [mergeStep_rev, if_neg]
    rintro ⟨hp, -⟩
    unfold isDataRevoked at hp
    simp [hva2] at hp

/-- Witness for C8: the unverifiable candidate is rejected, the local lists
stay unchanged, and the concrete update succeeds. -/
theorem update_catches_verification_failure_witness :
    (∀ e, SubKey.update exSubKey exSubKey 0 = Except.error e →
      e = KeyError.FingerprintMismatch) ∧
    mergeStep bindingCheck [] exUnverifiedNewerSig = [] ∧
    mergeStep (revocationCheck 0) [] exUnverifiedNewerSig = [] :=
  update_catches_verification_failure exSubKey exSubKey 0 [] []
    exUnverifiedNewerSig exUnverifiedNewerSig (by rfl) (by rfl) (by rfl) (by rfl)

/-! C9: revoke. -/

theorem verifiesAs_true_iff (t : Nat) (s : SignaturePacket) :
    verifiesAs t s = true ↔ (s.signatureType = t ∧ s.verifiesOk = true) := by
  unfold verifiesAs serviceVerify
  by_cases h : s.signatureType = t ∧ s.verifiesOk = true
  · rw [if_pos h]
    simp [h]
  · rw [if_neg h]
    simp [h]

theorem latestStep_ne_none_of_ne (expectedType date : Nat)
    (acc : Option SignaturePacket) (s : SignaturePacket) (h : acc ≠ none) :
    latestStep expectedType date acc s ≠ none := by
  unfold latestStep
  by_cases hc : validCand expectedType date s
  · rw [if_pos hc]
    cases acc with
    | none => simp
    | some c =>
      show (if c.created < s.created then some s else some c) ≠
        (none : Option SignaturePacket)
      by_cases h2 : c.created < s.created
      · rw [if_pos h2]
        simp
      · rw [if_neg h2]
        simp
  · rw [if_neg hc]
    exact h

theorem latestStep_valid_ne_none (expectedType date : Nat)
    (acc : Option SignaturePacket) (s : SignaturePacket)
    (h : validCand expectedType date s) :
    latestStep expectedType date acc s ≠ none := by
  unfold latestStep
  rw [if_pos h]
  cases acc with
  | none => simp
  | some c =>
    show (if c.created < s.created then some s else some c) ≠
      (none : Option SignaturePacket)
    by_cases h2 : c.created < s.created
    · rw [if_pos h2]
      simp
    · rw [if_neg h2]
      simp

theorem getLatest_foldl_ne_none (expectedType date : Nat)
    (L : List SignaturePacket) :
    ∀ acc : Option SignaturePacket,
      (acc ≠ none ∨ ∃ s ∈ L, validCand expectedType date s) →
      L.foldl (latestStep expectedType date) acc ≠ none := by
  induction L with
  | nil =>
    intro acc h
    rcases h with h | ⟨s, hs, -⟩
    · exact h
    · simp at hs
  | cons s0 L ih =>
    intro acc h
    rw [List.foldl_cons]
    apply ih
    rcases h with h | ⟨s, hs, hc⟩
    · exact Or.inl (latestStep_ne_none_of_ne _ _ _ _ h)
    · rcases List.mem_cons.mp hs with rfl | hs'
      · exact Or.inl (latestStep_valid_ne_none _ _ _ _ hc)
      · exact Or.inr ⟨s, hs', hc⟩

theorem getLatest_some_of_all (L : List SignaturePacket) (expectedType date : Nat)
    (hne : L ≠ [])
    (hall : ∀ s ∈ L, validCand expectedType date s) :
    ∃ b, getLatestValidSignature L expectedType date = some b := by
  have h : getLatestValidSignature L expectedType date ≠ none := by
    cases L with
    | nil => exact absurd rfl hne
    | cons s0 L' =>
      exact getLatest_foldl_ne_none expectedType date (s0 :: L') none
        (Or.inr ⟨s0, by simp, hall s0 (by simp)⟩)
  exact Option.ne_none_iff_exists'.mp h

theorem mergeStep_mem (d : List SignaturePacket) (s x : SignaturePacket)
    (hx : x ∈ mergeStep bindingCheck d s) : x ∈ d ∨ x = s := by
  cases hr : bindingLoop s d with
  | some d' =>
    rw [mergeStep_binding_replace d d' s hr] at hx
    obtain ⟨l1, t, l2, hd, hno, ht, hl'⟩ := bindingLoop_some_spec s d d' hr
    subst hd
    subst hl'
    rcases List.mem_append.mp hx with h | h
    · exact Or.inl (List.mem_append_left _ h)
    · rcases List.mem_cons.mp h with h1 | h2
      · rw [h1]
        by_cases hc : t.created < s.created
        · rw [if_pos hc]
          exact Or.inr rfl
        · rw [if_neg hc]
          exact Or.inl (List.mem_append_right _ (by simp))
      · exact Or.inl (List.mem_append_right _ (by simp [h2]))
  | none =>
    cases ha : (s.verified || verifiesAs subkeyBindingType s) with
    | true =>
      rw [mergeStep_binding_append d s hr ha] at hx
      rcases List.mem_append.mp hx with h | h
      · exact Or.inl h
      · exact Or.inr (by simpa using h)
    | false =>
      rw [mergeStep_binding_skip d s hr ha] at hx
      exact Or.inl hx

theorem foldl_mem_src (L : List SignaturePacket) :
    ∀ (d : List SignaturePacket) (x : SignaturePacket),
      x ∈ L.foldl (mergeStep bindingCheck) d → x ∈ d ∨ x ∈ L := by
  induction L with
  | nil =>
    intro d x hx
    exact Or.inl hx
  | cons s L ih =>
    intro d x hx
    rw [List.foldl_cons] at hx
    rcases ih _ x hx with h | h
    · rcases mergeStep_mem d s x h with h' | h''
      · exact Or.inl h'
      · exact Or.inr (by simp [h''])
    · exact Or.inr (by simp [h])

theorem mergeStep_length (d : List SignaturePacket) (s : SignaturePacket) :
    d.length ≤ (mergeStep bindingCheck d s).length := by
  cases hr : bindingLoop s d with
  | some d' =>
    rw [mergeStep_binding_replace d d' s hr]
    obtain ⟨l1, t, l2, hd, -, -, hl'⟩ := bindingLoop_some_spec s d d' hr
    subst hd
    subst hl'
    simp
  | none =>
    cases ha : (s.verified || verifiesAs subkeyBindingType s) with
    | true =>
      rw [mergeStep_binding_append d s hr ha]
      simp
    | false =>
      rw [mergeStep_binding_skip d s hr ha]

theorem foldl_length_mono (L : List SignaturePacket) :
    ∀ d : List SignaturePacket,
      d.length ≤ (L.foldl (mergeStep bindingCheck) d).length := by
  induction L with
  | nil =>
    intro d
    exact Nat.le_refl _
  | cons s L ih =>
    intro d
    rw [List.foldl_cons]
    exact Nat.le_trans (mergeStep_length d s) (ih _)

/-- C9 (amended): provided every binding signature of the original verifies
as a subkey binding and none is expired at the query date, and the original
verifies at that date, `revoke` returns a new entity sharing the original's
key material, carrying the freshly minted subkey-revocation signature along
with the absorbed history, and that entity fails `verify` with `Revoked` at
every date at or after the revocation date; the original value is not
touched by the construction. -/
theorem revoke_yields_revoked_entity (sk : SubKey) (pid flag : Nat)
    (str : String) (d now dq : Nat) (hd : d ≤ dq)
    (hv : ∀ s ∈ sk.bindingSignatures, verifiesAs subkeyBindingType s = true)
    (hnx : ∀ s ∈ sk.bindingSignatures, sigIsExpired s dq = false)
    (hok : sk.verify dq = Except.ok ()) :
    ∃ rk, sk.revoke pid flag str d now = Except.ok rk ∧
      rk.keyPacket = sk.keyPacket ∧
      createRevocationSignature pid flag str d ∈ rk.revocationSignatures ∧
      rk.verify dq = Except.error KeyError.Revoked := by
  have hfp : SubKey.hasSameFingerprintAs
      { keyPacket := sk.keyPacket, bindingSignatures := [],
        revocationSignatures := [createRevocationSignature pid flag str d] }
      sk = true := by
    unfold SubKey.hasSameFingerprintAs
    exact decide_eq_true rfl
  have hrev : sk.revoke pid flag str d now = Except.ok
      { keyPacket := sk.keyPacket,
        bindingSignatures := mergeSignatures sk.bindingSignatures [] bindingCheck,
        revocationSignatures :=
          mergeSignatures sk.revocationSignatures
            [createRevocationSignature pid flag str d] (revocationCheck now) } := by
    show SubKey.update
      { keyPacket := sk.keyPacket, bindingSignatures := [],
        revocationSignatures := [createRevocationSignature pid flag str d] }
      sk now = _
    unfold SubKey.update
    rw [if_pos hfp]
    congr 1
    refine SubKey.ext_fields _ _ ?_ rfl rfl
    show (if sk.keyPacket.tag = publicSubkeyTag ∧
          sk.keyPacket.tag = secretSubkeyTag
        then sk.keyPacket else sk.keyPacket) = sk.keyPacket
    exact ite_self _
  have hfmem : createRevocationSignature pid flag str d ∈
      mergeSignatures sk.revocationSignatures
        [createRevocationSignature pid flag str d] (revocationCheck now) :=
    rev_fold_mem_mono now sk.revocationSignatures _ _ (by simp)
  have hbne : sk.bindingSignatures ≠ [] := by
    intro hnil
    unfold SubKey.verify at hok
    rw [hnil] at hok
    simp [getLatestValidSignature] at hok
  have hL1len : 1 ≤ (mergeSignatures sk.bindingSignatures [] bindingCheck).length := by
    cases hbs : sk.bindingSignatures with
    | nil => exact absurd hbs hbne
    | cons s0 rest =>
      have ha : (s0.verified || verifiesAs subkeyBindingType s0) = true := by
        rw [hv s0 (by rw [hbs]; simp)]
        simp
      have h0 : mergeStep bindingCheck [] s0 = [s0] :=
        mergeStep_binding_append [] s0 rfl ha
      unfold mergeSignatures
      rw [List.foldl_cons, h0]
      simpa using foldl_length_mono rest [s0]
  have hallcand : ∀ x ∈ mergeSignatures sk.bindingSignatures [] bindingCheck,
      validCand subkeyBindingType dq x := by
    intro x hx
    rcases foldl_mem_src sk.bindingSignatures [] x hx with h | h
    · simp at h
    · exact ⟨((verifiesAs_true_iff _ _).mp (hv x h)).1, hv x h, hnx x h⟩
  obtain ⟨bb, hbb⟩ := getLatest_some_of_all
    (mergeSignatures sk.bindingSignatures [] bindingCheck) subkeyBindingType dq
    (by intro h0; rw [h0] at hL1len; simp at hL1len) hallcand
  refine ⟨_, hrev, rfl, hfmem, ?_⟩
  refine verify_revoked_of_valid_revocation _ dq bb hbb ?_
  exact Or.inr ⟨createRevocationSignature pid flag str d, hfmem, rfl, rfl, hd⟩

/-- Witness for the amended C9: revoking the concrete valid subkey at
time 150 yields an entity that is `Revoked` at time 200. -/
theorem revoke_yields_revoked_entity_witness :
    ∃ rk, SubKey.revoke exSubKey 1 2 "lost device" 150 0 = Except.ok rk ∧
      rk.keyPacket = exSubKey.keyPacket ∧
      createRevocationSignature 1 2 "lost device" 150 ∈ rk.revocationSignatures ∧
      rk.verify 200 = Except.error KeyError.Revoked :=
  revoke_yields_revoked_entity exSubKey 1 2 "lost device" 150 0 200
    (by decide) (by decide) (by decide) (by rfl)

/-- A valid binding signature from issuer 2, created at 2, never expiring. -/
def c9Good : SignaturePacket :=
  { signatureType := subkeyBindingType, issuerKeyId := 2, created := 2,
    sigExpiration := none, keyValidityPeriod := none,
    verified := false, verifiesOk := true, revoked := false,
    reasonFlag := 0, reasonString := "" }

/-- A later same-issuer binding signature that does not verify. -/
def c9Junk : SignaturePacket :=
  { signatureType := subkeyBindingType, issuerKeyId := 2, created := 10,
    sigExpiration := none, keyValidityPeriod := none,
    verified := false, verifiesOk := false, revoked := false,
    reasonFlag := 0, reasonString := "" }

/-- A subkey that verifies (through `c9Good`) while also holding the later
unverifiable `c9Junk` from the same issuer. -/
def c9SK : SubKey :=
  { keyPacket := exKeyPacket, bindingSignatures := [c9Good, c9Junk],
    revocationSignatures := [] }

/-- The entity produced by revoking `c9SK`: the history merge lets `c9Junk`
replace `c9Good`, leaving no valid binding signature. -/
def c9RK : SubKey :=
  { keyPacket := exKeyPacket, bindingSignatures := [c9Junk],
    revocationSignatures := [createRevocationSignature 1 0 "" 5] }

/-- Counterexample to C9 as stated: the original subkey verifies at date 20,
yet the entity returned by `revoke` (revocation date 5 ≤ 20) fails `verify`
with `NoValidBindingSignature`, not `Revoked`, because the merge replaced
the only valid binding signature by the newer unverifiable one. -/
theorem revoke_not_always_revoked :
    SubKey.verify c9SK 20 = Except.ok () ∧
    SubKey.revoke c9SK 1 0 "" 5 0 = Except.ok c9RK ∧
    SubKey.verify c9RK 20 = Except.error KeyError.NoValidBindingSignature :=
  ⟨by rfl, by rfl, by rfl⟩

end OpenPGP
